import Mathlib

/-!
Shallow embedding of the Mag7 dashboard's time-series pipeline
(src/utils.py, src/streamlit_app.py, src/components.py, src/app.py).

A pandas Series of adjusted-close prices is modelled as a list of
(timestamp, optional value) pairs; `none` stands for a missing value (NaN).
A timezone-naive timestamp stores its wall-clock reading; a timezone-aware
timestamp stores the UTC instant (pandas' internal representation), the
zone label being kept separately.  Minutes are the time unit and rationals
model the float arithmetic.
-/

namespace Mag7

/-- One Adj Close column: (timestamp, value) rows, `none` modelling NaN. -/
abbrev SeriesRows := List (Int × Option ℚ)

/-- A pytz timezone, modelled by its name and a fixed UTC offset in minutes.
Europe/Berlin is +120 in summer and +60 in winter; the development only
relies on the offset never being 0, so the summer value is used. -/
structure Tz where
  name : String
  offsetMinutes : Int
deriving DecidableEq

def utcTz : Tz := ⟨"UTC", 0⟩

/-- pytz.timezone of Europe/Berlin, at its summer (CEST) offset. -/
def berlinTz : Tz := ⟨"Europe/Berlin", 120⟩

/-- A pandas DataFrame with a DatetimeIndex and one Adj Close column.
With `tz = none` the index is timezone-naive and each stamp is a wall-clock
value; with `tz = some z` the index is aware and each stamp is a UTC
instant. -/
structure Frame where
  tz : Option Tz
  rows : List (Int × Option ℚ)
deriving DecidableEq

/-- pandas index.tz_localize of UTC: reinterpret naive wall-clock stamps as
UTC instants.  The stored numbers are unchanged because UTC's offset is 0. -/
def tz_localize_utc (f : Frame) : Frame := { f with tz := some utcTz }

/-- pandas tz_convert to a zone, on an aware index: the UTC instants are
unchanged, only the display zone label changes. -/
def tz_convert (f : Frame) (z : Tz) : Frame := { f with tz := some z }

/-- pandas tz_convert applied to None: convert to UTC, then drop the label,
so the resulting naive stamps are the UTC wall-clock values, i.e. the
instants themselves. -/
def tz_convert_none (f : Frame) : Frame := { tz := none, rows := f.rows }

/-- The wall-clock readings an index displays: naive stamps display as
stored, aware stamps display shifted by the zone's offset. -/
def wallClock (f : Frame) : List Int :=
  match f.tz with
  | none => f.rows.map Prod.fst
  | some z => f.rows.map (fun r => r.1 + z.offsetMinutes)

/-- utils.process_data_all_times (src/utils.py lines 38 to 66).  The result
is returned together with the state of the caller's frame after the call:
the naive branch runs an assignment to data.index, which updates the input
frame in place, while the aware branch rebinds a local name only.  The two
except-branches of the source are unreachable for datetime indexes, since
localizing to UTC and converting to Europe/Berlin never raise. -/
def process_data_all_times (data : Frame) : Frame × Frame :=
  if data.rows = [] then (⟨none, []⟩, data)
  else
    match data.tz with
    | none =>
        let d := tz_convert (tz_localize_utc data) berlinTz
        (d, d)
    | some _ => (tz_convert data berlinTz, data)

/-- utils.to_excel (src/utils.py lines 93 to 108), restricted to the index
conversion it performs on the sheet it writes: the frame is copied and an
aware index is stripped with tz_convert applied to None.  First component:
the frame written to the sheet; second component: the caller's frame after
the call, untouched thanks to the df.copy() on line 98. -/
def to_excel (df : Frame) : Frame × Frame :=
  (match df.tz with
   | some _ => tz_convert_none df
   | none => df,
   df)

/-- C9: timezone normalization is idempotent — running
process_data_all_times on its own output changes neither the values nor
the timestamps nor the zone label. -/
theorem claim9_normalize_idempotent (data : Frame) :
    (process_data_all_times (process_data_all_times data).1).1 =
      (process_data_all_times data).1 := by
  rcases data with ⟨tz, rows⟩
  cases tz <;> cases rows <;>
    simp [process_data_all_times, tz_convert, tz_localize_utc]

/-- C3 counterexample: exporting a Berlin-labelled frame whose single stamp
is UTC instant 0 (wall clock 120 in Berlin) writes the naive stamp 0, not
120: tz_convert applied to None converts to UTC before stripping the label,
so the displayed clock times shift by the Berlin offset. -/
theorem claim3_counterexample :
    (to_excel ⟨some berlinTz, [(0, some 1)]⟩).1.tz = none ∧
    (to_excel ⟨some berlinTz, [(0, some 1)]⟩).1.rows.map Prod.fst ≠
      wallClock ⟨some berlinTz, [(0, some 1)]⟩ := by
  refine ⟨rfl, ?_⟩
  decide

/-- C3 amended: for every combined table whose index carries a timezone
label, the export conversion produces a sheet whose index is
timezone-naive and whose stamps are the original index's UTC instants —
its wall-clock values in UTC, not in the display timezone Europe/Berlin —
with all cell values unchanged. -/
theorem claim3_amended (df : Frame) (z : Tz) (h : df.tz = some z) :
    (to_excel df).1 = ⟨none, df.rows⟩ := by
  simp [to_excel, h, tz_convert_none]

theorem claim3_amended_witness :
    (to_excel ⟨some berlinTz, [(0, some 1)]⟩).1 = ⟨none, [(0, some 1)]⟩ :=
  claim3_amended ⟨some berlinTz, [(0, some 1)]⟩ berlinTz rfl

/-- C6 counterexample: process_data_all_times mutates a non-empty
naive-index frame in place — after the call the caller's frame carries the
Berlin zone label, so its index and timezone label are not unchanged. -/
theorem claim6_counterexample :
    (process_data_all_times ⟨none, [(0, some 1)]⟩).2 ≠
      (⟨none, [(0, some 1)]⟩ : Frame) := by
  decide

/-- C6 amended: the Excel export never mutates its input (it copies first),
and timezone normalization leaves aware or empty inputs untouched, but it
mutates a non-empty naive input in place: after the call the input's index
has been made timezone-aware Europe/Berlin (same instants, new label). -/
theorem claim6_amended (df g : Frame) :
    (to_excel df).2 = df ∧
    (g.tz.isSome ∨ g.rows = [] → (process_data_all_times g).2 = g) ∧
    (g.tz = none → g.rows ≠ [] →
      (process_data_all_times g).2 = ⟨some berlinTz, g.rows⟩) := by
  refine ⟨rfl, ?_, ?_⟩
  · rintro (hz | he)
    · rcases g with ⟨tz, rows⟩
      cases tz with
      | none => simp at hz
      | some z =>
          by_cases h : rows = [] <;>
            simp [process_data_all_times, h]
    · simp [process_data_all_times, he]
  · intro hz he
    rcases g with ⟨tz, rows⟩
    cases hz
    simp [process_data_all_times, he, tz_convert, tz_localize_utc]

theorem claim6_amended_witness :
    (to_excel ⟨some berlinTz, [(0, some 1)]⟩).2 =
      (⟨some berlinTz, [(0, some 1)]⟩ : Frame) ∧
    (process_data_all_times ⟨none, [(0, some 1)]⟩).2 =
      (⟨some berlinTz, [(0, some 1)]⟩ : Frame) :=
  ⟨(claim6_amended ⟨some berlinTz, [(0, some 1)]⟩ ⟨none, [(0, some 1)]⟩).1,
   (claim6_amended ⟨some berlinTz, [(0, some 1)]⟩ ⟨none, [(0, some 1)]⟩).2.2
     rfl (by decide)⟩

/-! ## Basket aggregation: utils.calculate_weighted_portfolio -/

/-- One iteration of the assignment on src/utils.py line 80, which stores
one company's weighted Adj Close column into the portfolio DataFrame, in
row-oriented form.  Assigning a column to an empty DataFrame adopts the
series' own index; assigning to a non-empty one reindexes the series to
the already-established index, so timestamps absent from the series become
NaN and the series' other timestamps are discarded. -/
def assign_weighted (pf : Option (List (Int × List (Option ℚ)))) (s : SeriesRows)
    (w : ℚ) : Option (List (Int × List (Option ℚ))) :=
  match pf with
  | none => some (s.map fun r => (r.1, [r.2.map (· * w)]))
  | some rows =>
      some (rows.map fun rc => (rc.1, rc.2 ++ [((s.lookup rc.1).join).map (· * w)]))

/-- utils.calculate_weighted_portfolio (src/utils.py lines 68 to 91).
`none` models the ZeroDivisionError raised by the division on line 75 when
the basket is empty.  Otherwise the equal weight is 1 over the total
number of entities in the basket, empty ones included; empty entities
never become columns; and the row sum of line 86 treats NaN cells as 0. -/
def calculate_weighted_portfolio (basket : List (String × SeriesRows)) :
    Option (List (Int × ℚ)) :=
  if basket = [] then none
  else
    match basket.foldl
        (fun acc p => if p.2 = [] then acc
          else assign_weighted acc p.2 (1 / (basket.length : ℚ))) none with
    | none => some []
    | some rows =>
        some (rows.map fun rc => (rc.1, (rc.2.map (fun c => c.getD 0)).sum))

theorem lookup_of_key_nodup {β : Type} (s : List (Int × β))
    (hnd : (s.map Prod.fst).Nodup) {r : Int × β} (hr : r ∈ s) :
    s.lookup r.1 = some r.2 := by
  induction s with
  | nil => cases hr
  | cons a t ih =>
      rcases List.mem_cons.1 hr with h | h
      · subst h
        simp [List.lookup]
      · have hne : a.1 ≠ r.1 := by
          intro he
          have hmem : r.1 ∈ t.map Prod.fst := List.mem_map_of_mem Prod.fst h
          rw [← he] at hmem
          exact (List.nodup_cons.1 hnd).1 hmem
        have hbe : (r.1 == a.1) = false :=
          beq_eq_false_iff_ne.2 fun he => hne he.symm
        simp only [List.lookup, hbe]
        exact ih (List.nodup_cons.1 hnd).2 h

theorem foldl_assign_skip_empty (l : List (String × SeriesRows)) (w : ℚ)
    (acc : Option (List (Int × List (Option ℚ)))) (h : ∀ p ∈ l, p.2 = []) :
    l.foldl (fun acc p => if p.2 = [] then acc else assign_weighted acc p.2 w)
      acc = acc := by
  induction l generalizing acc with
  | nil => rfl
  | cons p t ih =>
      have hp : p.2 = [] := h p (List.mem_cons_self p t)
      simp only [List.foldl_cons, hp, if_pos rfl]
      exact ih acc fun q hq => h q (List.mem_cons_of_mem p hq)

theorem foldl_assign_some (l : List (String × SeriesRows)) (w : ℚ)
    (rows : List (Int × List (Option ℚ))) :
    l.foldl (fun acc p => if p.2 = [] then acc else assign_weighted acc p.2 w)
      (some rows) =
    some (rows.map fun rc => (rc.1, rc.2 ++
      (l.filter (fun p => !(p.2 = []))).map
        (fun p => ((p.2.lookup rc.1).join).map (· * w)))) := by
  induction l generalizing rows with
  | nil => simp
  | cons p t ih =>
      by_cases hp : p.2 = []
      · simp only [List.foldl_cons]
        rw [if_pos hp, ih]
        refine congrArg some (List.map_congr_left fun rc _ => ?_)
        simp [List.filter_cons, hp]
      · have hstep : assign_weighted (some rows) p.2 w =
            some (rows.map fun rc =>
              (rc.1, rc.2 ++ [((p.2.lookup rc.1).join).map (· * w)])) := rfl
        simp only [List.foldl_cons]
        rw [if_neg hp, hstep, ih]
        refine congrArg some ?_
        rw [List.map_map]
        refine List.map_congr_left fun rc _ => ?_
        simp [Function.comp, List.filter_cons, hp, List.append_assoc]

/-- The per-row contribution of one entity's series at a timestamp, with a
missing timestamp or NaN value contributing 0. -/
theorem option_map_mul_getD (o : Option ℚ) (w : ℚ) :
    (o.map (· * w)).getD 0 = o.getD 0 * w := by
  cases o <;> simp

/-- Running the column-assignment loop over a basket whose first non-empty
entity is s₀: the portfolio index is s₀'s own index and each row collects
one weighted cell per non-empty entity. -/
theorem foldl_assign_decomp (pre post : List (String × SeriesRows))
    (c₀ : String) (s₀ : SeriesRows) (w : ℚ)
    (hpre : ∀ p ∈ pre, p.2 = ([] : SeriesRows)) (hs : s₀ ≠ []) :
    (pre ++ (c₀, s₀) :: post).foldl
      (fun acc p => if p.2 = [] then acc else assign_weighted acc p.2 w) none =
    some (s₀.map fun r => (r.1, (r.2.map (· * w)) ::
      (post.filter (fun p => !(p.2 = []))).map
        (fun p => ((p.2.lookup r.1).join).map (· * w)))) := by
  rw [List.foldl_append, foldl_assign_skip_empty pre w none hpre]
  have hstep : assign_weighted none s₀ w =
      some (s₀.map fun r => (r.1, [r.2.map (· * w)])) := rfl
  simp only [List.foldl_cons]
  rw [if_neg hs, hstep, foldl_assign_some]
  refine congrArg some ?_
  rw [List.map_map]
  exact List.map_congr_left fun r _ => by simp

/-- Shared closed form of calculate_weighted_portfolio: when the first
non-empty entity of the basket is s₀ (with distinct timestamps), the
portfolio is indexed by s₀'s timestamps, and each value is the sum over
the non-empty entities of, per entity, its value at that timestamp
(0 when the timestamp is absent or the value NaN) times 1 over the total
basket size. -/
theorem cwp_closed_form (basket : List (String × SeriesRows)) (c₀ : String)
    (s₀ : SeriesRows) (pre post : List (String × SeriesRows))
    (hb : basket = pre ++ (c₀, s₀) :: post)
    (hpre : ∀ p ∈ pre, p.2 = ([] : SeriesRows))
    (hs : s₀ ≠ [])
    (hnd : (s₀.map Prod.fst).Nodup) :
    calculate_weighted_portfolio basket =
      some (s₀.map fun r => (r.1,
        ((basket.filter (fun p => !(p.2 = []))).map
          (fun p => ((p.2.lookup r.1).join.getD 0) *
            (1 / (basket.length : ℚ)))).sum)) := by
  subst hb
  have hbne : pre ++ (c₀, s₀) :: post ≠ [] := by simp
  unfold calculate_weighted_portfolio
  rw [if_neg hbne]
  simp only [foldl_assign_decomp pre post c₀ s₀ _ hpre hs]
  refine congrArg some ?_
  rw [List.map_map]
  refine List.map_congr_left fun r hr => ?_
  have hfilter : (pre ++ (c₀, s₀) :: post).filter (fun p => !(p.2 = [])) =
      (c₀, s₀) :: post.filter (fun p => !(p.2 = [])) := by
    rw [List.filter_append]
    have hprenil : pre.filter (fun p => !(p.2 = [])) = [] := by
      rw [List.filter_eq_nil_iff]
      intro p hp
      simp [hpre p hp]
    rw [hprenil, List.nil_append, List.filter_cons, if_pos (by simp [hs])]
  rw [hfilter]
  have hlk := lookup_of_key_nodup s₀ hnd hr
  have hjoin : (s₀.lookup r.1).join = r.2 := by rw [hlk]; simp
  simp only [Function.comp_apply, List.map_cons, List.sum_cons, List.map_map,
    option_map_mul_getD, hjoin]
  refine congrArg (fun v => (r.1,
    r.2.getD 0 * (1 / ((pre ++ (c₀, s₀) :: post).length : ℚ)) + v)) ?_
  refine congrArg List.sum (List.map_congr_left fun p _ => ?_)
  simp only [Function.comp_apply]
  cases p.2.lookup r.1 with
  | none => simp
  | some o => cases o <;> simp

/-- C1 counterexample: for the basket with A empty and B the single sample
(0, 10), the composite is B halved — weight 1 over 2, the empty entity
counting in the denominator — not B unchanged with weight 1 over 1. -/
theorem claim1_counterexample :
    calculate_weighted_portfolio [("A", []), ("B", [(0, some 10)])] =
      some [(0, 5)] ∧
    calculate_weighted_portfolio [("A", []), ("B", [(0, some 10)])] ≠
      some [(0, 10)] := by
  constructor
  · norm_num +decide [calculate_weighted_portfolio, assign_weighted]
  · norm_num +decide [calculate_weighted_portfolio, assign_weighted]

/-- C1 amended: each contributing entity's value series is multiplied by
the weight 1 over the total number of entities in the basket, entities
with empty series included in the denominator; in particular, for the
basket with A empty and B non-empty, the composite equals B's series
multiplied by one half. -/
theorem claim1_amended (A B : String) (sB : SeriesRows) (h : sB ≠ [])
    (hnd : (sB.map Prod.fst).Nodup) :
    calculate_weighted_portfolio [(A, []), (B, sB)] =
      some (sB.map fun r => (r.1, r.2.getD 0 * (1 / 2))) := by
  rw [cwp_closed_form [(A, []), (B, sB)] B sB [(A, [])] [] rfl
    (by simp) h hnd]
  refine congrArg some (List.map_congr_left fun r hr => ?_)
  have hfilter : [(A, ([] : SeriesRows)), (B, sB)].filter
      (fun p => !(p.2 = [])) = [(B, sB)] := by
    simp [List.filter_cons, h]
  rw [hfilter]
  simp only [List.map_cons, List.map_nil, List.sum_cons, List.sum_nil, add_zero]
  rw [lookup_of_key_nodup sB hnd hr]
  have hjoin : (some r.2).join = r.2 := by simp
  rw [hjoin]
  norm_num

theorem claim1_amended_witness :
    calculate_weighted_portfolio [("A", []), ("B", [(0, some 10), (1, some 20)])] =
      some [(0, 5), (1, 10)] := by
  have h := claim1_amended "A" "B" [(0, some 10), (1, some 20)]
    (by decide) (by decide)
  rw [h]
  norm_num

/-- C2 counterexample: on the empty basket the aggregation raises a
ZeroDivisionError (modelled by `none`) from the division by the basket
length, instead of returning an empty frame as its normal return value. -/
theorem claim2_counterexample :
    calculate_weighted_portfolio [] = none := rfl

/-- C2 amended: for every non-empty basket the aggregation returns
normally (no exception), and when every entity's series is empty it
returns the empty frame; on the empty basket itself it raises a
division-by-zero error instead. -/
theorem claim2_amended (basket : List (String × SeriesRows))
    (h : basket ≠ []) :
    (calculate_weighted_portfolio basket).isSome ∧
    ((∀ p ∈ basket, p.2 = ([] : SeriesRows)) →
      calculate_weighted_portfolio basket = some []) := by
  constructor
  · unfold calculate_weighted_portfolio
    rw [if_neg h]
    cases hf : basket.foldl
        (fun acc p => if p.2 = [] then acc
          else assign_weighted acc p.2 (1 / (basket.length : ℚ))) none <;>
      simp [hf]
  · intro hall
    unfold calculate_weighted_portfolio
    rw [if_neg h, foldl_assign_skip_empty basket _ none hall]

theorem claim2_amended_witness :
    (calculate_weighted_portfolio [("A", [])]).isSome ∧
    calculate_weighted_portfolio [("A", [])] = some [] :=
  ⟨(claim2_amended [("A", [])] (by decide)).1,
   (claim2_amended [("A", [])] (by decide)).2 (by decide)⟩

/-- C4 counterexample: for A with the single timestamp 0 and B with
timestamps 0 and 1, the union of timestamps is both 0 and 1, but the
composite is defined only at 0 — the first entity's index — so timestamp 1
is discarded instead of being kept with a half contribution from B. -/
theorem claim4_counterexample :
    calculate_weighted_portfolio
        [("A", [(0, some 1)]), ("B", [(0, some 1), (1, some 1)])] =
      some [(0, 1)] ∧
    calculate_weighted_portfolio
        [("A", [(0, some 1)]), ("B", [(0, some 1), (1, some 1)])] ≠
      some [(0, 1), (1, 1 / 2)] := by
  constructor
  · norm_num +decide [calculate_weighted_portfolio, assign_weighted, List.lookup]
  · norm_num +decide [calculate_weighted_portfolio, assign_weighted, List.lookup]

/-- C4 amended: for every basket with at least one non-empty entity, the
composite is defined on the first non-empty entity's timestamps (not on
the union of all entities' timestamps: later entities' other timestamps
are discarded), and at each of those timestamps its value is the sum over
non-empty entities of the entity value times the weight, an entity missing
that timestamp contributing exactly 0. -/
theorem claim4_amended (basket : List (String × SeriesRows)) (c₀ : String)
    (s₀ : SeriesRows) (pre post : List (String × SeriesRows))
    (hb : basket = pre ++ (c₀, s₀) :: post)
    (hpre : ∀ p ∈ pre, p.2 = ([] : SeriesRows))
    (hs : s₀ ≠ [])
    (hnd : (s₀.map Prod.fst).Nodup) :
    calculate_weighted_portfolio basket =
      some (s₀.map fun r => (r.1,
        ((basket.filter (fun p => !(p.2 = []))).map
          (fun p => ((p.2.lookup r.1).join.getD 0) *
            (1 / (basket.length : ℚ)))).sum)) :=
  cwp_closed_form basket c₀ s₀ pre post hb hpre hs hnd

theorem claim4_amended_witness :
    calculate_weighted_portfolio
        [("A", []), ("B", [(0, some 10), (1, some 20)]),
         ("C", [(1, some 30)])] =
      some [(0, 10 / 3), (1, 50 / 3)] := by
  have h := claim4_amended
      [("A", []), ("B", [(0, some 10), (1, some 20)]), ("C", [(1, some 30)])]
      "B" [(0, some 10), (1, some 20)] [("A", [])] [("C", [(1, some 30)])]
      rfl (by decide) (by decide) (by decide)
  rw [h]
  have e10 : ((1 : Int) == (0 : Int)) = false := by decide
  have e00 : ((0 : Int) == (0 : Int)) = true := by decide
  have e01 : ((0 : Int) == (1 : Int)) = false := by decide
  have e11 : ((1 : Int) == (1 : Int)) = true := by decide
  norm_num +decide [List.lookup, e10, e00, e01, e11]

/-! ## Derived metrics: percentage change and rebase-to-100 -/

/-- pandas forward fill (the default pad fill inside Series.pct_change):
each missing value takes the last preceding non-missing value. -/
def ffill (prev : Option ℚ) : List (Option ℚ) → List (Option ℚ)
  | [] => []
  | v :: vs =>
      match v with
      | some x => some x :: ffill (some x) vs
      | none => prev :: ffill prev vs

/-- The per-position quotient of pandas pct_change: current over previous
minus one, missing when either side is missing. -/
def pctPair : Option ℚ × Option ℚ → Option ℚ
  | (some a, some b) => some (b / a - 1)
  | _ => none

/-- pandas Series.pct_change on a value column: forward fill, then each
position after the first pairs with its predecessor; the first position is
always missing. -/
def pct_change (vs : List (Option ℚ)) : List (Option ℚ) :=
  match ffill none vs with
  | [] => []
  | f₀ :: fs => none :: ((f₀ :: fs).zip fs).map pctPair

/-- The percentage-change series of streamlit_app.plot_percentage_bar_charts
(src/streamlit_app.py lines 264 to 275) and of the export loop: Adj Close
pct_change times 100, then dropna. -/
def pct_change_dropna (s : SeriesRows) : List (Int × ℚ) :=
  ((s.map Prod.fst).zip
      ((pct_change (s.map Prod.snd)).map (Option.map (· * 100)))).filterMap
    (fun p => p.2.map (fun q => (p.1, q)))

theorem ffill_map_some (prev : Option ℚ) (vs : List ℚ) :
    ffill prev (vs.map some) = vs.map some := by
  induction vs generalizing prev with
  | nil => rfl
  | cons v vs ih => simp [ffill, ih]

theorem zip_map_some (l₁ l₂ : List ℚ) :
    (l₁.map some).zip (l₂.map some) =
      (l₁.zip l₂).map (fun p => (some p.1, some p.2)) := by
  induction l₁ generalizing l₂ with
  | nil => simp
  | cons a l₁ ih => cases l₂ <;> simp [ih]

theorem pct_change_map_some (v₀ : ℚ) (vr : List ℚ) :
    pct_change ((v₀ :: vr).map some) =
      none :: ((v₀ :: vr).zip vr).map (fun p => some (p.2 / p.1 - 1)) := by
  have hf : ffill none ((v₀ :: vr).map some) = some v₀ :: vr.map some := by
    rw [List.map_cons]
    show some v₀ :: ffill (some v₀) (vr.map some) = _
    rw [ffill_map_some]
  unfold pct_change
  rw [hf]
  show none :: ((some v₀ :: vr.map some).zip (vr.map some)).map pctPair = _
  rw [← List.map_cons, zip_map_some, List.map_map]
  exact congrArg (none :: ·) (List.map_congr_left fun p _ => rfl)

theorem filterMap_zip_map_some {α : Type} (kr : List Int) (Y : List α)
    (g : α → ℚ) :
    ((kr.zip (Y.map (fun y => some (g y)))).filterMap
      (fun p => p.2.map (fun q => (p.1, q)))) =
    (kr.zip Y).map (fun p => (p.1, g p.2)) := by
  induction kr generalizing Y with
  | nil => simp
  | cons k kr ih =>
      cases Y with
      | nil => simp
      | cons y Y => simp [List.filterMap_cons, ih]

theorem getElem?_zip_pair {α β : Type} (l₁ : List α) (l₂ : List β) (i : Nat) :
    (l₁.zip l₂)[i]? =
      match l₁[i]?, l₂[i]? with
      | some a, some b => some (a, b)
      | _, _ => none := by
  induction l₁ generalizing l₂ i with
  | nil => simp
  | cons a l₁ ih =>
      cases l₂ with
      | nil => simp
      | cons b l₂ =>
          cases i with
          | zero => simp
          | succ i => simpa using ih l₂ i

/-- Closed form of the dropna-ed percentage change on a gap-free series. -/
theorem pcd_closed (k₀ : Int) (kr : List Int) (v₀ : ℚ) (vr : List ℚ)
    (hlen : kr.length = vr.length) :
    pct_change_dropna ((k₀ :: kr).zip ((v₀ :: vr).map some)) =
      (kr.zip ((v₀ :: vr).zip vr)).map
        (fun p => (p.1, (p.2.2 / p.2.1 - 1) * 100)) := by
  unfold pct_change_dropna
  have hfst : ((k₀ :: kr).zip ((v₀ :: vr).map some)).map Prod.fst = k₀ :: kr :=
    List.map_fst_zip _ _ (by simp [hlen])
  have hsnd : ((k₀ :: kr).zip ((v₀ :: vr).map some)).map Prod.snd =
      (v₀ :: vr).map some :=
    List.map_snd_zip _ _ (by simp [hlen])
  rw [hfst, hsnd, pct_change_map_some]
  have hmap : ((((v₀ :: vr).zip vr).map (fun p => some (p.2 / p.1 - 1))).map
      (Option.map (· * 100))) =
      ((v₀ :: vr).zip vr).map (fun p => some ((p.2 / p.1 - 1) * 100)) := by
    rw [List.map_map]
    exact List.map_congr_left fun p _ => rfl
  rw [List.map_cons, hmap, List.zip_cons_cons, List.filterMap_cons]
  show ((kr.zip (((v₀ :: vr).zip vr).map
      (fun p => some ((p.2 / p.1 - 1) * 100)))).filterMap
        (fun p => p.2.map (fun q => (p.1, q)))) = _
  exact filterMap_zip_map_some kr ((v₀ :: vr).zip vr)
    (fun p => (p.2 / p.1 - 1) * 100)

/-- C8: on a gap-free series, the percentage-change transform yields
exactly one sample fewer than the input (0 when the length is at most 1),
drops the first timestamp, and at the i-th retained position the value is
(next minus previous) over previous, times 100. -/
theorem claim8_pct_change (s : SeriesRows) (ks : List Int) (vs : List ℚ)
    (hs : s = ks.zip (vs.map some)) (hlen : ks.length = vs.length) :
    (pct_change_dropna s).length = s.length - 1 ∧
    (pct_change_dropna s).map Prod.fst = (s.map Prod.fst).tail ∧
    (∀ i a b, vs[i]? = some a → vs[i + 1]? = some b → a ≠ 0 →
      ((pct_change_dropna s)[i]?).map Prod.snd = some ((b - a) / a * 100)) := by
  subst hs
  cases ks with
  | nil =>
      refine ⟨by simp [pct_change_dropna, pct_change, ffill],?_, ?_⟩
      · simp [pct_change_dropna, pct_change, ffill]
      · have hvs : vs = [] := by
          cases vs with
          | nil => rfl
          | cons a l => simp at hlen
        subst hvs
        intro i a b ha
        simp at ha
  | cons k₀ kr =>
      cases vs with
      | nil => simp at hlen
      | cons v₀ vr =>
          have hlen' : kr.length = vr.length := by simpa using hlen
          have hc := pcd_closed k₀ kr v₀ vr hlen'
          have hzlen : ((v₀ :: vr).zip vr).length = vr.length := by
            simp [List.length_zip]
          refine ⟨?_, ?_, ?_⟩
          · rw [hc]
            simp only [List.length_map, List.length_zip, List.length_cons,
              hzlen, hlen']
            omega
          · rw [hc, List.map_map]
            have hleft : (kr.zip ((v₀ :: vr).zip vr)).map
                (Prod.fst ∘ fun p => (p.1, (p.2.2 / p.2.1 - 1) * 100)) =
                kr := by
              have h1 : (kr.zip ((v₀ :: vr).zip vr)).map
                  (Prod.fst ∘ fun p => (p.1, (p.2.2 / p.2.1 - 1) * 100)) =
                  (kr.zip ((v₀ :: vr).zip vr)).map Prod.fst :=
                List.map_congr_left fun p _ => rfl
              rw [h1]
              exact List.map_fst_zip _ _ (by rw [hzlen, hlen'])
            rw [hleft,
              List.map_fst_zip _ _ (by simp [hlen']), List.tail_cons]
          · intro i a b ha hb hne
            have hb' : vr[i]? = some b := by simpa using hb
            have hlt : i < vr.length := by
              rcases List.getElem?_eq_some.1 hb' with ⟨h, _⟩
              exact h
            have hkr : kr[i]? = some kr[i] :=
              List.getElem?_eq_getElem (by rw [hlen']; exact hlt)
            rw [hc, List.getElem?_map, getElem?_zip_pair,
              getElem?_zip_pair, hkr, ha, hb']
            show some ((b / a - 1) * 100) = some ((b - a) / a * 100)
            refine congrArg some ?_
            rw [div_sub' _ _ _ hne]
            ring_nf

theorem claim8_pct_change_witness :
    (pct_change_dropna [(0, some 10), (1, some 20), (2, some 10)]).length = 2 ∧
    ((pct_change_dropna [(0, some 10), (1, some 20), (2, some 10)])[0]?).map
        Prod.snd = some (((20 : ℚ) - 10) / 10 * 100) := by
  have h := claim8_pct_change [(0, some 10), (1, some 20), (2, some 10)]
      [0, 1, 2] [10, 20, 10] (by decide) rfl
  exact ⟨by rw [h.1]; rfl, h.2.2 0 10 20 rfl rfl (by norm_num)⟩

/-- pandas sort_index, as a stable insertion sort on the timestamp key. -/
def insertRow (r : Int × Option ℚ) : SeriesRows → SeriesRows
  | [] => [r]
  | x :: xs => if r.1 ≤ x.1 then r :: x :: xs else x :: insertRow r xs

def sort_index (s : SeriesRows) : SeriesRows := s.foldr insertRow []

/-- The rebase-to-100 transform of components.plot_scaled_performance
(src/components.py lines 143 to 160) and of
streamlit_app.plot_selected_scaled_tickers: sort by timestamp, locate the
first row with a non-missing Adj Close (first_valid_index and .loc), and
divide the whole column by that first valid value, times 100.  An empty
input, or one with no valid value, contributes no trace and is modelled as
the empty series. -/
def scaled_prices (s : SeriesRows) : SeriesRows :=
  if s = [] then []
  else
    match (sort_index s).find? (fun r => r.2.isSome) with
    | none => []
    | some fr =>
        (sort_index s).map (fun r =>
          (r.1, r.2.map (fun v => v / fr.2.getD 0 * 100)))

theorem mem_insertRow (a r : Int × Option ℚ) (l : SeriesRows) :
    a ∈ insertRow r l ↔ a = r ∨ a ∈ l := by
  induction l with
  | nil => simp [insertRow]
  | cons x xs ih =>
      by_cases h : r.1 ≤ x.1
      · simp [insertRow, h]
      · simp only [insertRow, if_neg h, List.mem_cons, ih]
        tauto

theorem mem_sort_index (a : Int × Option ℚ) (s : SeriesRows) :
    a ∈ sort_index s ↔ a ∈ s := by
  induction s with
  | nil => simp [sort_index]
  | cons x xs ih =>
      show a ∈ insertRow x (sort_index xs) ↔ _
      rw [mem_insertRow, ih, List.mem_cons]

/-- C7 counterexample: on a series whose first sample is missing, the
rebase keeps the leading sample as an undefined value at its original
timestamp instead of dropping it, so the output does not start at the
first valid timestamp. -/
theorem claim7_counterexample :
    scaled_prices [(0, none), (1, some 10), (2, some 20)] =
      [(0, none), (1, some 100), (2, some 200)] ∧
    scaled_prices [(0, none), (1, some 10), (2, some 20)] ≠
      [(1, some 100), (2, some 200)] := by
  constructor
  · norm_num +decide [scaled_prices, sort_index, insertRow, List.find?]
  · norm_num +decide [scaled_prices, sort_index, insertRow, List.find?]

/-- C7 amended: the rebase returns an empty series iff the input has no
non-missing value; otherwise the output keeps every timestamp of the
sorted input (samples before the first valid observation are retained with
an undefined value, not dropped), each present value v becomes
v over the first valid value, times 100, and the sample at the first valid
observation is exactly 100. -/
theorem claim7_amended (s : SeriesRows) :
    (scaled_prices s = [] ↔ ∀ r ∈ s, r.2 = none) ∧
    (∀ k p, (sort_index s).find? (fun r => r.2.isSome) = some (k, some p) →
      p ≠ 0 →
      scaled_prices s =
        (sort_index s).map (fun r => (r.1, r.2.map (fun v => v / p * 100))) ∧
      ((k, some (100 : ℚ)) : Int × Option ℚ) ∈ scaled_prices s) := by
  constructor
  · constructor
    · intro he r hr
      by_cases hs : s = []
      · subst hs; cases hr
      · unfold scaled_prices at he
        rw [if_neg hs] at he
        cases hf : (sort_index s).find? (fun r => r.2.isSome) with
        | none =>
            have hnone := List.find?_eq_none.1 hf r ((mem_sort_index r s).2 hr)
            simpa using hnone
        | some fr =>
            rw [hf] at he
            have hne : sort_index s ≠ [] := by
              intro h0
              rw [h0] at hf
              simp at hf
            rw [List.map_eq_nil_iff] at he
            exact absurd he hne
    · intro hall
      by_cases hs : s = []
      · simp [scaled_prices, hs]
      · unfold scaled_prices
        rw [if_neg hs]
        have hf : (sort_index s).find? (fun r => r.2.isSome) = none := by
          rw [List.find?_eq_none]
          intro x hx
          have hx2 := hall x ((mem_sort_index x s).1 hx)
          simp [hx2]
        rw [hf]
  · intro k p hf hp
    have hsne : s ≠ [] := by
      intro h0
      rw [h0] at hf
      simp [sort_index] at hf
    have heq : scaled_prices s =
        (sort_index s).map (fun r => (r.1, r.2.map (fun v => v / p * 100))) := by
      unfold scaled_prices
      rw [if_neg hsne, hf]
      rfl
    refine ⟨heq, ?_⟩
    have hmem : ((k, some p) : Int × Option ℚ) ∈ sort_index s :=
      List.mem_of_find?_eq_some hf
    rw [heq]
    refine List.mem_map.2 ⟨(k, some p), hmem, ?_⟩
    simp [div_self hp]

theorem claim7_amended_witness :
    scaled_prices [(1, some 50), (0, none), (2, some 100)] =
      [(0, none), (1, some 100), (2, some 200)] ∧
    (((1 : Int), some (100 : ℚ)) : Int × Option ℚ) ∈
      scaled_prices [(1, some 50), (0, none), (2, some 100)] := by
  have h := (claim7_amended [(1, some 50), (0, none), (2, some 100)]).2 1 50
    (by decide) (by norm_num)
  refine ⟨?_, h.2⟩
  rw [h.1]
  norm_num +decide [sort_index, insertRow]

/-! ## Tabular combiner: utils.create_dataframe -/

/-- One ticker's two-column frame (src/utils.py lines 122 to 124): the
renamed Value column and its pct_change times 100 column, on the series'
own index. -/
def tickerDf (s : SeriesRows) : List (Int × List (Option ℚ)) :=
  (s.zip ((pct_change (s.map Prod.snd)).map (Option.map (· * 100)))).map
    (fun p => (p.1.1, [p.1.2, p.2]))

/-- Sorted insertion without duplicates, building the index union of a
pandas outer join. -/
def insertKey (k : Int) : List Int → List Int
  | [] => [k]
  | x :: xs =>
      if k < x then k :: x :: xs
      else if k = x then x :: xs
      else x :: insertKey k xs

def unionKeys (ks : List Int) : List Int := ks.foldr insertKey []

/-- pandas DataFrame.join with outer mode on the timestamp index: the
result is indexed by the sorted union of both indexes, and a row missing
on one side contributes NaN cells for that side's columns. -/
def outerJoin (a b : List (Int × List (Option ℚ))) (na nb : Nat) :
    List (Int × List (Option ℚ)) :=
  (unionKeys (a.map Prod.fst ++ b.map Prod.fst)).map
    (fun k => (k, ((a.lookup k).getD (List.replicate na none)) ++
                  ((b.lookup k).getD (List.replicate nb none))))

/-- One iteration of the column-building loop of create_dataframe
(src/utils.py lines 120 to 128): empty tickers are skipped; the first
non-empty ticker's frame initializes the combined frame (the
combined_df.empty test), later ones are outer-joined onto it. -/
def combineStep (acc : List String × List (Int × List (Option ℚ)))
    (p : String × SeriesRows) : List String × List (Int × List (Option ℚ)) :=
  if p.2 = [] then acc
  else if acc.1 = [] then
    ([p.1 ++ " Value", p.1 ++ " % Change"], tickerDf p.2)
  else
    (acc.1 ++ [p.1 ++ " Value", p.1 ++ " % Change"],
      outerJoin acc.2 (tickerDf p.2) acc.1.length 2)

/-- The combined frame before the dropna of line 131, with its column
names in insertion order. -/
def buildCombined (tickers : List (String × SeriesRows)) :
    List String × List (Int × List (Option ℚ)) :=
  tickers.foldl combineStep ([], [])

/-- The substring test of Python's `in` operator on strings, used by the
column classification on src/utils.py lines 134 and 135. -/
def containsSub (pat s : String) : Bool :=
  (List.range (s.toList.length + 1)).any
    (fun i => pat.toList.isPrefixOf (s.toList.drop i))

/-- A cell of the final combined table: Value cells stay numeric,
percentage cells are formatted to strings. -/
inductive TCell where
  | num (q : ℚ)
  | txt (t : String)
deriving DecidableEq

/-- Python's two-decimal percent formatting of src/utils.py line 139,
modelled with rounding to hundredths. -/
def fmtPct (q : ℚ) : String :=
  (if round (q * 100) < 0 then "-" else "") ++
    toString ((round (q * 100)).natAbs / 100) ++ "." ++
    (if (round (q * 100)).natAbs % 100 < 10 then "0" else "") ++
    toString ((round (q * 100)).natAbs % 100) ++ "%"

/-- One output row: cells are picked by column name in the reordered
column list; percentage cells are formatted as strings (line 139), Value
cells stay numeric.  The fallback arm is unreachable for retained rows,
whose cells are all present under their column names. -/
def formatRow (cols newCols : List String) (rc : Int × List (Option ℚ)) :
    Int × List TCell :=
  (rc.1, newCols.map (fun c =>
    match (cols.zip rc.2).lookup c with
    | some (some q) =>
        if containsSub "% Change" c then TCell.txt (fmtPct q)
        else TCell.num q
    | _ => TCell.num 0))

/-- The dropna of line 131, the column split of lines 134 to 135, the
formatting of lines 138 to 139 and the reordering of line 142. -/
def dropnaFormat (built : List String × List (Int × List (Option ℚ))) :
    List String × List (Int × List TCell) :=
  (built.1.filter (fun c => containsSub "Value" c) ++
     built.1.filter (fun c => containsSub "% Change" c),
   (built.2.filter (fun rc => rc.2.all Option.isSome)).map
     (formatRow built.1
       (built.1.filter (fun c => containsSub "Value" c) ++
        built.1.filter (fun c => containsSub "% Change" c))))

/-- utils.create_dataframe (src/utils.py lines 110 to 145). -/
def create_dataframe (tickers : List (String × SeriesRows)) :
    List String × List (Int × List TCell) :=
  if tickers = [] then ([], [])
  else dropnaFormat (buildCombined tickers)

theorem lookup_mem {β : Type} (l : List (Int × β)) (k : Int) (v : β)
    (h : l.lookup k = some v) : (k, v) ∈ l := by
  induction l with
  | nil => simp [List.lookup] at h
  | cons a t ih =>
      cases hke : (k == a.1) with
      | true =>
          simp only [List.lookup, hke] at h
          have hk : k = a.1 := eq_of_beq hke
          rw [Option.some.injEq] at h
          refine List.mem_cons.2 (Or.inl ?_)
          rw [hk, ← h]
      | false =>
          simp only [List.lookup, hke] at h
          exact List.mem_cons_of_mem a (ih h)

theorem lookup_mem_keys {β : Type} (l : List (Int × β)) (k : Int) (v : β)
    (h : l.lookup k = some v) : k ∈ l.map Prod.fst :=
  List.mem_map.2 ⟨(k, v), lookup_mem l k v h, rfl⟩

theorem ffill_length (prev : Option ℚ) (vs : List (Option ℚ)) :
    (ffill prev vs).length = vs.length := by
  induction vs generalizing prev with
  | nil => rfl
  | cons v vs ih => cases v <;> simp [ffill, ih]

theorem pct_change_length (vs : List (Option ℚ)) :
    (pct_change vs).length = vs.length := by
  unfold pct_change
  cases hf : ffill none vs with
  | nil =>
      have hl := ffill_length none vs
      rw [hf] at hl
      simpa using hl
  | cons f₀ fs =>
      have hl := ffill_length none vs
      rw [hf] at hl
      simp only [List.length_cons] at hl
      simp only [List.length_cons, List.length_map, List.length_zip,
        List.length_cons]
      omega

theorem tickerDf_keys (s : SeriesRows) :
    (tickerDf s).map Prod.fst = s.map Prod.fst := by
  unfold tickerDf
  have hlen : s.length ≤
      ((pct_change (s.map Prod.snd)).map (Option.map (· * 100))).length := by
    rw [List.length_map, pct_change_length, List.length_map]
  rw [List.map_map]
  have h1 : (s.zip ((pct_change (s.map Prod.snd)).map
      (Option.map (· * 100)))).map
        (Prod.fst ∘ fun p => (p.1.1, [p.1.2, p.2])) =
      ((s.zip ((pct_change (s.map Prod.snd)).map
        (Option.map (· * 100)))).map Prod.fst).map Prod.fst := by
    rw [List.map_map]
    exact List.map_congr_left fun p _ => rfl
  rw [h1, List.map_fst_zip _ _ hlen]

theorem replicate_none_not_all_isSome (n : Nat) (h : 0 < n) :
    (List.replicate n (none : Option ℚ)).all Option.isSome = false := by
  cases n with
  | zero => omega
  | succ n => simp [List.replicate_succ]

theorem mem_outerJoin (a b : List (Int × List (Option ℚ))) (na nb : Nat)
    (t : Int) (cells : List (Option ℚ))
    (h : (t, cells) ∈ outerJoin a b na nb) :
    cells = ((a.lookup t).getD (List.replicate na none)) ++
      ((b.lookup t).getD (List.replicate nb none)) := by
  unfold outerJoin at h
  rcases List.mem_map.1 h with ⟨k, _, hk⟩
  injection hk with h1 h2
  subst h1
  exact h2.symm

theorem create_dataframe_keys (tickers : List (String × SeriesRows))
    (h : tickers ≠ []) :
    (create_dataframe tickers).2.map Prod.fst =
      ((buildCombined tickers).2.filter
        (fun rc => rc.2.all Option.isSome)).map Prod.fst := by
  unfold create_dataframe dropnaFormat
  rw [if_neg h]
  rw [List.map_map]
  exact List.map_congr_left fun rc _ => rfl

theorem create_dataframe_length (tickers : List (String × SeriesRows))
    (h : tickers ≠ []) :
    (create_dataframe tickers).2.length =
      ((buildCombined tickers).2.filter
        (fun rc => rc.2.all Option.isSome)).length := by
  unfold create_dataframe dropnaFormat
  rw [if_neg h]
  simp [List.length_map]

/-- A ticker's frame covers a set of joined rows when every fully-present
row's timestamp looks up in the ticker's frame to fully-present cells. -/
def coveredBy (s : SeriesRows) (rows : List (Int × List (Option ℚ))) : Prop :=
  ∀ t cells, (t, cells) ∈ rows → cells.all Option.isSome = true →
    ∃ cs, (tickerDf s).lookup t = some cs ∧ cs.all Option.isSome = true

theorem foldl_combineStep_preserve (l : List (String × SeriesRows))
    (s : SeriesRows) (acc : List String × List (Int × List (Option ℚ)))
    (h1 : acc.1 ≠ []) (hP : coveredBy s acc.2) :
    (l.foldl combineStep acc).1 ≠ [] ∧
      coveredBy s (l.foldl combineStep acc).2 := by
  induction l generalizing acc with
  | nil => exact ⟨h1, hP⟩
  | cons p t ih =>
      by_cases hp : p.2 = []
      · have hstep : combineStep acc p = acc := by simp [combineStep, hp]
        rw [List.foldl_cons, hstep]
        exact ih acc h1 hP
      · have hstep : combineStep acc p =
            (acc.1 ++ [p.1 ++ " Value", p.1 ++ " % Change"],
              outerJoin acc.2 (tickerDf p.2) acc.1.length 2) := by
          simp [combineStep, hp, h1]
        rw [List.foldl_cons, hstep]
        refine ih _ (by simp) ?_
        intro t' cells hmem hall
        have hcells := mem_outerJoin _ _ _ _ _ _ hmem
        subst hcells
        rw [List.all_append, Bool.and_eq_true] at hall
        have hallA := hall.1
        cases hlk : acc.2.lookup t' with
        | none =>
            rw [hlk] at hallA
            have hpos : 0 < acc.1.length := List.length_pos.2 h1
            rw [Option.getD_none,
              replicate_none_not_all_isSome _ hpos] at hallA
            cases hallA
        | some csA =>
            rw [hlk, Option.getD_some] at hallA
            exact hP t' csA (lookup_mem _ _ _ hlk) hallA

theorem foldl_combineStep_covers (tickers : List (String × SeriesRows))
    (name : String) (s : SeriesRows) (hs : s ≠ [])
    (hnd : (s.map Prod.fst).Nodup) :
    ∀ acc, (name, s) ∈ tickers →
      coveredBy s (tickers.foldl combineStep acc).2 := by
  induction tickers with
  | nil =>
      intro acc hmem
      cases hmem
  | cons p t ih =>
      intro acc hmem
      by_cases hp : p.2 = []
      · have hstep : combineStep acc p = acc := by simp [combineStep, hp]
        rw [List.foldl_cons, hstep]
        rcases List.mem_cons.1 hmem with he | hm
        · exfalso
          apply hs
          have hps : p.2 = s := (congrArg Prod.snd he).symm
          rw [← hps, hp]
        · exact ih acc hm
      · rcases List.mem_cons.1 hmem with he | hm
        · have hps : p.2 = s := (congrArg Prod.snd he).symm
          by_cases h1 : acc.1 = []
          · have hstep : combineStep acc p =
                ([p.1 ++ " Value", p.1 ++ " % Change"], tickerDf p.2) := by
              simp [combineStep, hp, h1]
            rw [List.foldl_cons, hstep]
            refine (foldl_combineStep_preserve t s _ (by simp) ?_).2
            intro t' cells hmem2 hall
            rw [hps] at hmem2
            refine ⟨cells, ?_, hall⟩
            exact lookup_of_key_nodup (tickerDf s)
              (by rw [tickerDf_keys]; exact hnd) hmem2
          · have hstep : combineStep acc p =
                (acc.1 ++ [p.1 ++ " Value", p.1 ++ " % Change"],
                  outerJoin acc.2 (tickerDf p.2) acc.1.length 2) := by
              simp [combineStep, hp, h1]
            rw [List.foldl_cons, hstep]
            refine (foldl_combineStep_preserve t s _ (by simp) ?_).2
            intro t' cells hmem2 hall
            have hcells := mem_outerJoin _ _ _ _ _ _ hmem2
            subst hcells
            rw [List.all_append, Bool.and_eq_true] at hall
            have hallB := hall.2
            cases hlk : (tickerDf p.2).lookup t' with
            | none =>
                rw [hlk, Option.getD_none,
                  replicate_none_not_all_isSome 2 (by omega)] at hallB
                cases hallB
            | some csB =>
                rw [hlk, Option.getD_some] at hallB
                rw [hps] at hlk
                exact ⟨csB, hlk, hallB⟩
        · rw [List.foldl_cons]
          exact ih _ hm

theorem tickerDf_lookup_head (k₀ : Int) (v₀ : Option ℚ) (rest : SeriesRows) :
    (tickerDf ((k₀, v₀) :: rest)).lookup k₀ = some [v₀, none] := by
  unfold tickerDf
  have hpc : ∃ Y, pct_change (((k₀, v₀) :: rest).map Prod.snd) =
      none :: Y := by
    rw [List.map_cons]
    unfold pct_change
    cases v₀ with
    | some x => exact ⟨_, rfl⟩
    | none => exact ⟨_, rfl⟩
  obtain ⟨Y, hY⟩ := hpc
  rw [hY, List.map_cons, Option.map_none', List.zip_cons_cons, List.map_cons]
  simp [List.lookup]

theorem pct_times_100 (a : ℚ) (vr : List ℚ) :
    (((a :: vr).zip vr).map (fun p => some (p.2 / p.1 - 1))).map
      (Option.map (· * 100)) =
    ((a :: vr).zip vr).map (fun p => some ((p.2 / p.1 - 1) * 100)) := by
  rw [List.map_map]
  exact List.map_congr_left fun p _ => rfl

theorem tdf_tail (kr : List Int) (vr : List ℚ) (a : ℚ)
    (hlen : kr.length = vr.length) :
    ((kr.zip (vr.map some)).zip
        (((a :: vr).zip vr).map (fun p => some ((p.2 / p.1 - 1) * 100)))).map
      (fun p => (p.1.1, [p.1.2, p.2])) =
    (kr.zip ((a :: vr).zip vr)).map
      (fun p => (p.1, [some p.2.2, some ((p.2.2 / p.2.1 - 1) * 100)])) := by
  induction kr generalizing vr a with
  | nil => simp
  | cons k kr ih =>
      cases vr with
      | nil => simp at hlen
      | cons b vr =>
          have hlen' : kr.length = vr.length := by simpa using hlen
          simp only [List.map_cons, List.zip_cons_cons]
          rw [ih vr b hlen']

/-- Closed form of a ticker's two-column frame on a gap-free series. -/
theorem tickerDf_closed (k₀ : Int) (kr : List Int) (v₀ : ℚ) (vr : List ℚ)
    (hlen : kr.length = vr.length) :
    tickerDf ((k₀ :: kr).zip ((v₀ :: vr).map some)) =
      (k₀, [some v₀, none]) ::
        (kr.zip ((v₀ :: vr).zip vr)).map
          (fun p => (p.1, [some p.2.2, some ((p.2.2 / p.2.1 - 1) * 100)])) := by
  unfold tickerDf
  have hsnd : ((k₀ :: kr).zip ((v₀ :: vr).map some)).map Prod.snd =
      (v₀ :: vr).map some := List.map_snd_zip _ _ (by simp [hlen])
  rw [hsnd, pct_change_map_some]
  simp only [List.map_cons, List.zip_cons_cons, Option.map_none']
  rw [pct_times_100]
  exact congrArg ((k₀, [some v₀, none]) :: ·) (tdf_tail kr vr v₀ hlen)

theorem int_beq_eq_decide (a b : Int) : (a == b) = decide (a = b) := rfl

/-- C5: every timestamp kept by the combined table of a two-entity basket
with both series non-empty is present in both input series — each kept row
must have all four cells, so both Value cells must exist; in particular
the two non-empty series [(t0,100),(t1,110)] and [(t2,50)] with t2 outside
the first's timestamps combine to an empty table. -/
theorem claim5_combine_timestamps (A B : String) :
    (∀ (sA sB : SeriesRows) (t : Int), sA ≠ [] → sB ≠ [] →
      t ∈ (create_dataframe [(A, sA), (B, sB)]).2.map Prod.fst →
      t ∈ sA.map Prod.fst ∧ t ∈ sB.map Prod.fst) ∧
    (∀ t0 t1 t2 : Int, t2 ≠ t0 → t2 ≠ t1 →
      (create_dataframe [(A, [(t0, some 100), (t1, some 110)]),
        (B, [(t2, some 50)])]).2 = []) := by
  have main : ∀ (sA sB : SeriesRows) (t : Int), sA ≠ [] → sB ≠ [] →
      t ∈ (create_dataframe [(A, sA), (B, sB)]).2.map Prod.fst →
      t ∈ sA.map Prod.fst ∧ t ∈ sB.map Prod.fst := by
    intro sA sB t hA hB ht
    rw [create_dataframe_keys _ (by simp)] at ht
    have hbuilt : buildCombined [(A, sA), (B, sB)] =
        ([A ++ " Value", A ++ " % Change", B ++ " Value", B ++ " % Change"],
          outerJoin (tickerDf sA) (tickerDf sB) 2 2) := by
      unfold buildCombined
      rw [List.foldl_cons, List.foldl_cons, List.foldl_nil]
      have h1 : combineStep ([], []) (A, sA) =
          ([A ++ " Value", A ++ " % Change"], tickerDf sA) := by
        simp [combineStep, hA]
      rw [h1]
      simp [combineStep, hB]
    rw [hbuilt] at ht
    rcases List.mem_map.1 ht with ⟨rc, hrc, hfst⟩
    rcases List.mem_filter.1 hrc with ⟨hmem, hall⟩
    obtain ⟨t', cells⟩ := rc
    have ht' : t' = t := hfst
    subst ht'
    have hcells := mem_outerJoin _ _ _ _ _ _ hmem
    subst hcells
    rw [List.all_append, Bool.and_eq_true] at hall
    constructor
    · cases hlk : (tickerDf sA).lookup t' with
      | none =>
          exfalso
          have hallA := hall.1
          rw [hlk, Option.getD_none,
            replicate_none_not_all_isSome 2 (by omega)] at hallA
          cases hallA
      | some cs =>
          have hk := lookup_mem_keys _ _ _ hlk
          rwa [tickerDf_keys] at hk
    · cases hlk : (tickerDf sB).lookup t' with
      | none =>
          exfalso
          have hallB := hall.2
          rw [hlk, Option.getD_none,
            replicate_none_not_all_isSome 2 (by omega)] at hallB
          cases hallB
      | some cs =>
          have hk := lookup_mem_keys _ _ _ hlk
          rwa [tickerDf_keys] at hk
  refine ⟨main, ?_⟩
  intro t0 t1 t2 h20 h21
  cases hrows : (create_dataframe [(A, [(t0, some 100), (t1, some 110)]),
      (B, [(t2, some 50)])]).2 with
  | nil => rfl
  | cons r rest =>
      exfalso
      have hmemk : r.1 ∈ (create_dataframe
          [(A, [(t0, some 100), (t1, some 110)]),
           (B, [(t2, some 50)])]).2.map Prod.fst := by
        rw [hrows]
        exact List.mem_map_of_mem Prod.fst (List.mem_cons_self r rest)
      have h := main _ _ r.1 (by simp) (by simp) hmemk
      have h2 : r.1 = t2 := by simpa using h.2
      have h1 : r.1 = t0 ∨ r.1 = t1 := by simpa using h.1
      rcases h1 with h1 | h1
      · exact h20 (h2.symm.trans h1)
      · exact h21 (h2.symm.trans h1)

theorem claim5_combine_timestamps_witness :
    ((1 : Int) ∈ ([(0, some 1), (1, some 1)] : SeriesRows).map Prod.fst ∧
      (1 : Int) ∈ ([(0, some 1), (1, some 1)] : SeriesRows).map Prod.fst) ∧
    (create_dataframe [("A", [(0, some 100), (1, some 110)]),
      ("B", [(5, some 50)])]).2 = [] := by
  constructor
  · refine (claim5_combine_timestamps "A" "B").1
      [(0, some 1), (1, some 1)] [(0, some 1), (1, some 1)] 1
      (by decide) (by decide) ?_
    rw [create_dataframe_keys _ (by decide)]
    norm_num +decide [buildCombined, combineStep, tickerDf, pct_change, ffill,
      pctPair, outerJoin, unionKeys, insertKey, List.lookup, int_beq_eq_decide]
  · exact (claim5_combine_timestamps "A" "B").2 0 1 5 (by decide) (by decide)

/-- C10 counterexample: with A sampled at 0 and 2, and B sampled at 1 and
2, the only common timestamp of the join — hence its earliest — is 2, and
the combined table does contain it: both percentage cells are defined at 2
because each series has its own earlier first sample, so no undefined
entry forces the row out. -/
theorem claim10_counterexample :
    (2 : Int) ∈ (create_dataframe
        [("A", [(0, some 1), (2, some 2)]),
         ("B", [(1, some 1), (2, some 3)])]).2.map Prod.fst := by
  rw [create_dataframe_keys _ (by decide)]
  norm_num +decide [buildCombined, combineStep, tickerDf, pct_change, ffill,
    pctPair, outerJoin, unionKeys, insertKey, List.lookup, int_beq_eq_decide]

/-- C10 amended: the combined table never contains the first timestamp of
any contributing non-empty series with distinct timestamps (the series'
own percentage cell is undefined there and the row is dropped), but it may
contain the earliest common timestamp when that is no series' first
sample; a single-entity basket whose series has n gap-free samples yields
exactly n - 1 rows, starting at the second timestamp. -/
theorem claim10_amended (tickers : List (String × SeriesRows)) (name : String)
    (s : SeriesRows) :
    ((name, s) ∈ tickers → (s.map Prod.fst).Nodup →
      ∀ k₀ v₀ rest, s = (k₀, v₀) :: rest →
        k₀ ∉ (create_dataframe tickers).2.map Prod.fst) ∧
    (∀ (ks : List Int) (vs : List ℚ), s = ks.zip (vs.map some) →
      ks.length = vs.length →
      (create_dataframe [(name, s)]).2.map Prod.fst = ks.tail ∧
      (create_dataframe [(name, s)]).2.length = ks.length - 1) := by
  constructor
  · intro hmem hnd k₀ v₀ rest hdecomp hin
    have htne : tickers ≠ [] := by
      intro h0
      rw [h0] at hmem
      cases hmem
    rw [create_dataframe_keys _ htne] at hin
    rcases List.mem_map.1 hin with ⟨rc, hrc, hfst⟩
    rcases List.mem_filter.1 hrc with ⟨hmem2, hall⟩
    have hsne : s ≠ [] := by rw [hdecomp]; simp
    have hcov := foldl_combineStep_covers tickers name s hsne hnd
      ([], []) hmem
    obtain ⟨t', cells⟩ := rc
    have ht' : t' = k₀ := hfst
    subst ht'
    obtain ⟨cs, hlk, hallcs⟩ := hcov t' cells hmem2 hall
    rw [hdecomp, tickerDf_lookup_head] at hlk
    have hcs : cs = [v₀, none] := (Option.some.inj hlk).symm
    rw [hcs] at hallcs
    simp at hallcs
  · intro ks vs hzip hlen
    cases ks with
    | nil =>
        have hse : s = [] := by rw [hzip]; rfl
        subst hse
        have hb : buildCombined [(name, [])] = ([], []) := by
          simp [buildCombined, combineStep]
        constructor
        · rw [create_dataframe_keys _ (by simp), hb]
          rfl
        · rw [create_dataframe_length _ (by simp), hb]
          rfl
    | cons k₀ kr =>
        cases vs with
        | nil => simp at hlen
        | cons v₀ vr =>
            have hlen' : kr.length = vr.length := by simpa using hlen
            have hsne : s ≠ [] := by
              rw [hzip]
              simp
            have hbuilt : buildCombined [(name, s)] =
                ([name ++ " Value", name ++ " % Change"], tickerDf s) := by
              unfold buildCombined
              rw [List.foldl_cons, List.foldl_nil]
              simp [combineStep, hsne]
            have hfilter : (tickerDf s).filter
                (fun rc => rc.2.all Option.isSome) =
                (kr.zip ((v₀ :: vr).zip vr)).map
                  (fun p => (p.1, [some p.2.2,
                    some ((p.2.2 / p.2.1 - 1) * 100)])) := by
              rw [hzip, tickerDf_closed k₀ kr v₀ vr hlen', List.filter_cons]
              have hhead : (([some v₀, none] :
                  List (Option ℚ)).all Option.isSome) = false := rfl
              rw [if_neg (by simp [hhead])]
              refine List.filter_eq_self.2 fun a ha => ?_
              rcases List.mem_map.1 ha with ⟨p, _, hp⟩
              rw [← hp]
              rfl
            have hzq : ((v₀ :: vr).zip vr).length = vr.length := by
              simp [List.length_zip]
            constructor
            · rw [create_dataframe_keys _ (by simp), hbuilt, hfilter]
              have h1 : ((kr.zip ((v₀ :: vr).zip vr)).map
                  (fun p => (p.1, [some p.2.2,
                    some ((p.2.2 / p.2.1 - 1) * 100)]))).map Prod.fst =
                  (kr.zip ((v₀ :: vr).zip vr)).map Prod.fst := by
                rw [List.map_map]
                exact List.map_congr_left fun p _ => rfl
              rw [h1, List.map_fst_zip _ _ (by rw [hzq, hlen'])]
              rfl
            · rw [create_dataframe_length _ (by simp), hbuilt, hfilter]
              simp only [List.length_map, List.length_zip, hzq, hlen',
                List.length_cons]
              omega

theorem claim10_amended_witness :
    (7 : Int) ∉ (create_dataframe [("T", [(7, some 1)])]).2.map Prod.fst ∧
    (create_dataframe [("T", [(0, some 5), (1, some 10)])]).2.map Prod.fst =
      [1] ∧
    (create_dataframe [("T", [(0, some 5), (1, some 10)])]).2.length = 1 := by
  refine ⟨(claim10_amended [("T", [(7, some 1)])] "T" [(7, some 1)]).1
      (by decide) (by decide) 7 (some 1) [] rfl, ?_, ?_⟩
  · exact ((claim10_amended [] "T" [(0, some 5), (1, some 10)]).2
      [0, 1] [5, 10] (by decide) rfl).1
  · exact ((claim10_amended [] "T" [(0, some 5), (1, some 10)]).2
      [0, 1] [5, 10] (by decide) rfl).2

end Mag7
